import Mathlib

/-
Verification of the demand-driven activation and async-reconciliation layer
of the solid-state-tools library.

The development shallowly embeds the three core components:

* the Fetch State Machine (source function createFetched together with the
  createSpool plumbing it is built on),
* the Demand Counter (source function quantum),
* the Subscription Reconciler (source function createSubscription).

Stateful TypeScript code becomes explicit state passing on small structure
types; each externally observable operation of the source becomes a total
Lean function on the state.  Batched writes in the source (batch "(" ... ")")
are modelled by making the whole write sequence one atomic state-to-state
function, so downstream observers only ever see the combined transition.
-/

/-! ## Fetch State Machine

Source: createFetched.  The record keeps three signals (error, latest,
state), the boolean hasLatest, and the spool signal that backs the
externally visible reader (created by createSpool with the same initial
value as latest).  Each (re)run of the tracked computation registers a
cleanup that sets the invalided flag of that run and writes undefined to
the spool; the commit callback of a run first checks its invalided flag.

Runs are indexed here by a generation number curGen: the run started by
the n-th invocation captures generation n, and the invalided flag of a
run with captured generation g is set exactly when a later run has
started, i.e. when g differs from the current generation.  This is the
same supersession discipline the source implements with one boolean per
run. -/

/-- The five lifecycle states of a fetched signal (source type FetchedState). -/
inductive FetchedState
  | unresolved
  | pending
  | ready
  | refreshing
  | errored
deriving DecidableEq

/-- State of one createFetched record.  error, latest, state mirror the three
signals; hasLatest mirrors the mutable boolean; spool is the signal backing
the externally visible reader; curGen counts how many runs have started. -/
structure FetchSt (T E : Type) where
  error : Option E
  latest : Option T
  state : FetchedState
  hasLatest : Bool
  spool : Option T
  curGen : Nat
deriving DecidableEq

/-- Initial record: both latest and the spool signal are created with the
optional initial value, state is unresolved, no run has started. -/
def FetchSt.init (T E : Type) (initial : Option T) : FetchSt T E :=
  { error := none
    latest := initial
    state := FetchedState.unresolved
    hasLatest := false
    spool := initial
    curGen := 0 }

/-- One (re)run of the tracked computation inside createFetched.  On a rerun
(some run has already started) the cleanup of the previous run fires first:
it marks that run invalided (modelled by the generation bump below) and
writes undefined to the spool.  Then the body sets state to refreshing when
hasLatest holds and to pending otherwise.  The new run captures the new
current generation. -/
def runStart {T E : Type} (s : FetchSt T E) : FetchSt T E :=
  if s.curGen = 0 then
    { s with
        state := if s.hasLatest then FetchedState.refreshing else FetchedState.pending
        curGen := s.curGen + 1 }
  else
    { s with
        spool := none
        state := if s.hasLatest then FetchedState.refreshing else FetchedState.pending
        curGen := s.curGen + 1 }

/-- The commit callback handed to the winch by the run with captured
generation g.  The source returns immediately when the invalided flag of
that run is set, which holds exactly when g is no longer the current
generation; otherwise it atomically (inside batch) sets state to ready,
writes the value to latest, records hasLatest, and updates the spool. -/
def commit {T E : Type} (g : Nat) (x : T) (s : FetchSt T E) : FetchSt T E :=
  if g = s.curGen then
    { s with
        state := FetchedState.ready
        latest := some x
        hasLatest := true
        spool := some x }
  else s

/-- The catch branch of createFetched: a synchronous raise of the winch is
caught and turned into an atomic (batched) transition that sets state to
errored and stores the failure in the error signal; nothing else changes. -/
def failSync {T E : Type} (e : E) (s : FetchSt T E) : FetchSt T E :=
  { s with state := FetchedState.errored, error := some e }

/-- The synchronous part of one run: the computation body starts the run,
the winch commits the listed values in order under the captured generation,
and then either returns normally or raises, in which case the catch branch
records the failure.  The function is total: a raising winch never escapes
to the host computation. -/
def runSync {T E : Type} (cs : List T) (err : Option E) (s : FetchSt T E) :
    FetchSt T E :=
  let s1 := runStart s
  let s2 := cs.foldl (fun acc x => commit s1.curGen x acc) s1
  match err with
  | none => s2
  | some e => failSync e s2

theorem runStart_curGen {T E : Type} (s : FetchSt T E) :
    (runStart s).curGen = s.curGen + 1 := by
  by_cases h : s.curGen = 0 <;> simp [runStart, h]

theorem runStart_latest {T E : Type} (s : FetchSt T E) :
    (runStart s).latest = s.latest := by
  by_cases h : s.curGen = 0 <;> simp [runStart, h]

theorem runStart_hasLatest {T E : Type} (s : FetchSt T E) :
    (runStart s).hasLatest = s.hasLatest := by
  by_cases h : s.curGen = 0 <;> simp [runStart, h]

theorem runStart_error {T E : Type} (s : FetchSt T E) :
    (runStart s).error = s.error := by
  by_cases h : s.curGen = 0 <;> simp [runStart, h]

theorem runStart_state {T E : Type} (s : FetchSt T E) :
    (runStart s).state
      = if s.hasLatest then FetchedState.refreshing else FetchedState.pending := by
  by_cases h : s.curGen = 0 <;> simp [runStart, h]

theorem runStart_spool_of_run {T E : Type} (s : FetchSt T E) (h : s.curGen ≠ 0) :
    (runStart s).spool = none := by
  simp [runStart, h]

theorem commit_curGen {T E : Type} (g : Nat) (x : T) (s : FetchSt T E) :
    (commit g x s).curGen = s.curGen := by
  by_cases h : g = s.curGen <;> simp [commit, h]

theorem commit_of_ne {T E : Type} {g : Nat} (x : T) {s : FetchSt T E}
    (h : g ≠ s.curGen) : commit g x s = s := by
  simp [commit, h]

theorem commit_of_eq {T E : Type} {g : Nat} (x : T) {s : FetchSt T E}
    (h : g = s.curGen) :
    commit g x s
      = { s with
            state := FetchedState.ready
            latest := some x
            hasLatest := true
            spool := some x } := by
  simp [commit, h]

/-- Claim C1: for every Fetch State Machine and two run cycles, if the later
run starts before the earlier run commits, the earlier commit is a no-op on
the whole record (state, latest, and the externally visible spool included),
regardless of whether it fires before or after the later run commits, and
the settled record equals the one in which only the later run committed:
state ready, latest and spool carrying only the later value. -/
theorem fetched_superseded_commit_noop (T E : Type) (s0 : FetchSt T E) (x y : T) :
    commit (runStart s0).curGen x (runStart (runStart s0)) = runStart (runStart s0) ∧
    commit (runStart (runStart s0)).curGen y
        (commit (runStart s0).curGen x (runStart (runStart s0)))
      = commit (runStart (runStart s0)).curGen y (runStart (runStart s0)) ∧
    (commit (runStart (runStart s0)).curGen y
        (commit (runStart s0).curGen x (runStart (runStart s0)))).state
      = FetchedState.ready ∧
    (commit (runStart (runStart s0)).curGen y
        (commit (runStart s0).curGen x (runStart (runStart s0)))).latest = some y ∧
    (commit (runStart (runStart s0)).curGen y
        (commit (runStart s0).curGen x (runStart (runStart s0)))).spool = some y ∧
    commit (runStart s0).curGen x
        (commit (runStart (runStart s0)).curGen y (runStart (runStart s0)))
      = commit (runStart (runStart s0)).curGen y (runStart (runStart s0)) := by
  have hne : (runStart s0).curGen ≠ (runStart (runStart s0)).curGen := by
    rw [runStart_curGen, runStart_curGen (runStart s0), runStart_curGen]
    omega
  have h1 : commit (runStart s0).curGen x (runStart (runStart s0))
      = runStart (runStart s0) := commit_of_ne x hne
  have hne2 : (runStart s0).curGen
      ≠ (commit (runStart (runStart s0)).curGen y (runStart (runStart s0))).curGen := by
    rw [commit_curGen]
    exact hne
  have heq : (runStart (runStart s0)).curGen = (runStart (runStart s0)).curGen := rfl
  refine ⟨h1, by rw [h1], ?_, ?_, ?_, commit_of_ne x hne2⟩ <;>
    rw [h1, commit_of_eq y heq]

/-- Claim C2, counterexample: starting from a fresh record, run once, let the
winch raise synchronously (state becomes errored with no prior success), then
rerun.  The claim predicts state refreshing because a previous errored value
exists; the code computes hasLatest ? refreshing : pending with hasLatest
still false, so the rerun enters pending. -/
theorem fetched_errored_rerun_enters_pending :
    (failSync 7 (runStart (FetchSt.init Int Int none))).state
        = FetchedState.errored ∧
    (runStart (failSync 7 (runStart (FetchSt.init Int Int none)))).state
        = FetchedState.pending ∧
    (runStart (failSync 7 (runStart (FetchSt.init Int Int none)))).state
        ≠ FetchedState.refreshing := by
  refine ⟨rfl, rfl, by decide⟩

/-- Claim C2, amended: each run invocation sets state to refreshing exactly
when a previous successful commit has stored a value (hasLatest), and to
pending otherwise; a synchronous failure leaves hasLatest unchanged, so a
rerun that follows an errored run with no prior success enters pending, not
refreshing, while a commit under the current generation sets hasLatest. -/
theorem fetched_run_state_from_hasLatest (T E : Type) (s : FetchSt T E)
    (e : E) (x : T) :
    (runStart s).state
      = (if s.hasLatest then FetchedState.refreshing else FetchedState.pending) ∧
    (failSync e s).hasLatest = s.hasLatest ∧
    (commit s.curGen x s).hasLatest = true ∧
    (runStart (failSync e (runStart (FetchSt.init T E none)))).state
      = FetchedState.pending := by
  refine ⟨runStart_state s, rfl, by simp [commit], ?_⟩
  rw [runStart_state]
  have h1 : (failSync e (runStart (FetchSt.init T E none))).hasLatest = false := by
    show (runStart (FetchSt.init T E none)).hasLatest = false
    rw [runStart_hasLatest]
    rfl
  rw [h1]
  rfl

/-- Claim C3: when the winch raises synchronously (it is invoked during the
run it belongs to, so it has not been superseded), the run settles in one
atomic transition with state errored and the failure stored in error; the
value channels latest, hasLatest and the externally visible spool are
untouched by the failure handler, and the raise is absorbed by the catch
branch: runSync is a total function, so the host computation never sees the
exception. -/
theorem fetched_sync_raise_contained (T E : Type) (s : FetchSt T E) (e : E) :
    (runSync [] (some e) s).state = FetchedState.errored ∧
    (runSync [] (some e) s).error = some e ∧
    (runSync [] (some e) s).latest = s.latest ∧
    (runSync [] (some e) s).hasLatest = s.hasLatest ∧
    (runSync [] (some e) s).spool = (runStart s).spool ∧
    runSync [] (some e) s = failSync e (runStart s) := by
  refine ⟨rfl, rfl, ?_, ?_, rfl, rfl⟩
  · show (failSync e (runStart s)).latest = s.latest
    rw [show (failSync e (runStart s)).latest = (runStart s).latest from rfl,
      runStart_latest]
  · show (failSync e (runStart s)).hasLatest = s.hasLatest
    rw [show (failSync e (runStart s)).hasLatest = (runStart s).hasLatest from rfl,
      runStart_hasLatest]

/-- Claim C9: once at least one run has started, a rerun (whose cleanup fires
first) resets the externally visible spool to undefined while latest keeps
its previous value; until the next commit under the current generation the
spool stays undefined: a synchronous failure of the new run does not touch
it, and a commit from a superseded generation does not either. -/
theorem fetched_superseded_resets_spool (T E : Type) (s : FetchSt T E)
    (e : E) (g : Nat) (x : T) (h : s.curGen ≠ 0)
    (hg : g ≠ (runStart s).curGen) :
    (runStart s).spool = none ∧
    (runStart s).latest = s.latest ∧
    (failSync e (runStart s)).spool = none ∧
    (commit g x (runStart s)).spool = none := by
  have h1 := runStart_spool_of_run s h
  refine ⟨h1, runStart_latest s, h1, ?_⟩
  rw [commit_of_ne x hg]
  exact h1

/-- Concrete record for the witness of the supersession theorem: a fresh
machine after one run and one successful commit of the value 42. -/
def fetchedReadyOnce : FetchSt Int Int :=
  commit 1 42 (runStart (FetchSt.init Int Int none))

/-- Witness for claim C9 at the concrete record fetchedReadyOnce, whose
generation is 1 and whose latest is 42. -/
theorem fetched_superseded_resets_spool_w :
    (runStart fetchedReadyOnce).spool = none ∧
    (runStart fetchedReadyOnce).latest = fetchedReadyOnce.latest ∧
    (failSync 0 (runStart fetchedReadyOnce)).spool = none ∧
    (commit 1 5 (runStart fetchedReadyOnce)).spool = none :=
  fetched_superseded_resets_spool Int Int fetchedReadyOnce 0 1 5
    (by decide) (by decide)

/-! ## Demand Counter

Source: quantum.  The closure keeps a mutable counter, an optional dispose
closure, and the returned reader does nothing to them unless a listener is
tracking the read.  A tracked read calls count (which invokes track when the
counter is zero, storing the returned dispose) and registers uncount as a
cleanup of the listening computation; when that cleanup later fires it only
queues a microtask, and the queued microtask decrements the counter and,
when the counter reaches zero, calls the stored dispose exactly once.

The state carries the counter (an integer, as in the source), whether a
dispose closure is stored, how many queued microtask decrements are
outstanding, and how many times track (activate) and dispose (deactivate)
have run. -/

/-- State of one quantum accessor together with activation counters. -/
structure QuantumSt where
  counter : Int
  hasDispose : Bool
  queued : Nat
  activations : Nat
  deactivations : Nat
deriving DecidableEq

/-- Fresh quantum accessor: counter zero, no dispose stored, nothing queued,
track and dispose never invoked. -/
def QuantumSt.start : QuantumSt :=
  { counter := 0
    hasDispose := false
    queued := 0
    activations := 0
    deactivations := 0 }

/-- Events a quantum accessor reacts to: a read under a tracked listener, a
read outside any listener, the cleanup of a listening computation firing,
and one queued microtask executing. -/
inductive QEvent
  | trackedRead
  | untrackedRead
  | cleanup
  | microtask
deriving DecidableEq

/-- One step of the quantum accessor.  A tracked read runs count: when the
counter is zero it invokes track (storing the dispose closure) and then
increments; an untracked read is a pure pass-through; a cleanup only queues
a deferred decrement; an executing microtask decrements the counter and,
when it reaches zero with a dispose closure stored, invokes it once and
clears it. -/
def qstep : QEvent → QuantumSt → QuantumSt
  | QEvent.trackedRead, s =>
      if s.counter = 0 then
        { s with
            hasDispose := true
            activations := s.activations + 1
            counter := s.counter + 1 }
      else
        { s with counter := s.counter + 1 }
  | QEvent.untrackedRead, s => s
  | QEvent.cleanup, s => { s with queued := s.queued + 1 }
  | QEvent.microtask, s =>
      if s.queued = 0 then s
      else if s.counter - 1 = 0 ∧ s.hasDispose = true then
        { s with
            counter := s.counter - 1
            queued := s.queued - 1
            hasDispose := false
            deactivations := s.deactivations + 1 }
      else
        { s with counter := s.counter - 1, queued := s.queued - 1 }

/-- Run a sequence of quantum events from a state. -/
def qrun (tr : List QEvent) (s : QuantumSt) : QuantumSt :=
  tr.foldl (fun acc e => qstep e acc) s

/-- The reader returned by quantum: under a tracked listener it performs the
counting step, otherwise it touches nothing; in both cases it returns the
value of the wrapped source reader unchanged. -/
def quantumRead (α : Type) (tracked : Bool) (v : α) (s : QuantumSt) :
    α × QuantumSt :=
  if tracked then (v, qstep QEvent.trackedRead s) else (v, s)

theorem qstep_cleanup_frame (s : QuantumSt) :
    (qstep QEvent.cleanup s).counter = s.counter ∧
    (qstep QEvent.cleanup s).hasDispose = s.hasDispose ∧
    (qstep QEvent.cleanup s).activations = s.activations ∧
    (qstep QEvent.cleanup s).deactivations = s.deactivations ∧
    (qstep QEvent.cleanup s).queued = s.queued + 1 := by
  refine ⟨rfl, rfl, rfl, rfl, rfl⟩

theorem qstep_activations_of_not_tracked (e : QEvent)
    (he : e ≠ QEvent.trackedRead) (s : QuantumSt) :
    (qstep e s).activations = s.activations := by
  cases e with
  | trackedRead => exact absurd rfl he
  | untrackedRead => rfl
  | cleanup => rfl
  | microtask =>
      by_cases h0 : s.queued = 0
      · simp [qstep, h0]
      · by_cases h1 : s.counter - 1 = 0 ∧ s.hasDispose = true <;>
          simp [qstep, h0, h1]

theorem qrun_activations_of_no_tracked (tr : List QEvent)
    (h : ∀ e ∈ tr, e ≠ QEvent.trackedRead) :
    ∀ s : QuantumSt, (qrun tr s).activations = s.activations := by
  induction tr with
  | nil => intro s; rfl
  | cons e rest ih =>
      intro s
      have hs := qstep_activations_of_not_tracked e (h e (by simp)) s
      have hr := ih (fun x hx => h x (by simp [hx])) (qstep e s)
      calc (qrun (e :: rest) s).activations
          = (qrun rest (qstep e s)).activations := rfl
        _ = (qstep e s).activations := hr
        _ = s.activations := hs


theorem qstep_microtask_deactivations_of_no_dispose (t : QuantumSt)
    (h : t.hasDispose = false) :
    (qstep QEvent.microtask t).deactivations = t.deactivations := by
  by_cases h0 : t.queued = 0
  · simp [qstep, h0]
  · have hx : ¬ (t.counter - 1 = 0 ∧ t.hasDispose = true) := by
      intro hx
      rw [h] at hx
      exact Bool.false_ne_true hx.2
    simp [qstep, h0, hx]

theorem qrun_append (a b : List QEvent) (s : QuantumSt) :
    qrun (a ++ b) s = qrun b (qrun a s) := by
  simp [qrun]

theorem qstep_deactivations_of_not_microtask (e : QEvent)
    (he : e ≠ QEvent.microtask) (s : QuantumSt) :
    (qstep e s).deactivations = s.deactivations := by
  cases e with
  | trackedRead => by_cases h0 : s.counter = 0 <;> simp [qstep, h0]
  | untrackedRead => rfl
  | cleanup => rfl
  | microtask => exact absurd rfl he

theorem qrun_deactivations_of_no_microtask (tr : List QEvent)
    (h : ∀ e ∈ tr, e ≠ QEvent.microtask) :
    ∀ s : QuantumSt, (qrun tr s).deactivations = s.deactivations := by
  induction tr with
  | nil => intro s; rfl
  | cons e rest ih =>
      intro s
      have hs := qstep_deactivations_of_not_microtask e (h e (by simp)) s
      have hr := ih (fun x hx => h x (by simp [hx])) (qstep e s)
      calc (qrun (e :: rest) s).deactivations
          = (qrun rest (qstep e s)).deactivations := rfl
        _ = (qstep e s).deactivations := hr
        _ = s.deactivations := hs

theorem qrun_activations_of_pos (tr : List QEvent)
    (h : ∀ e ∈ tr, e ≠ QEvent.microtask) :
    ∀ s : QuantumSt, 0 < s.counter →
      (qrun tr s).activations = s.activations ∧ 0 < (qrun tr s).counter := by
  induction tr with
  | nil => intro s hs; exact ⟨rfl, hs⟩
  | cons e rest ih =>
      intro s hs
      have hstep : (qstep e s).activations = s.activations
          ∧ 0 < (qstep e s).counter := by
        cases e with
        | trackedRead =>
            have hne : ¬ s.counter = 0 := by omega
            refine ⟨by simp [qstep, hne], ?_⟩
            simp only [qstep, hne, if_false]
            show 0 < s.counter + 1
            omega
        | untrackedRead => exact ⟨rfl, hs⟩
        | cleanup => exact ⟨rfl, hs⟩
        | microtask => exact absurd rfl (h QEvent.microtask (by simp))
      have hr := ih (fun x hx => h x (by simp [hx])) (qstep e s) hstep.2
      exact ⟨hr.1.trans hstep.1, hr.2⟩

theorem qrun_activations_le_of_no_microtask (tr : List QEvent)
    (h : ∀ e ∈ tr, e ≠ QEvent.microtask) :
    ∀ s : QuantumSt, 0 ≤ s.counter →
      (qrun tr s).activations ≤ s.activations + 1 := by
  induction tr with
  | nil => intro s _; exact Nat.le_succ _
  | cons e rest ih =>
      intro s hs
      have hrest : ∀ x ∈ rest, x ≠ QEvent.microtask :=
        fun x hx => h x (by simp [hx])
      cases e with
      | trackedRead =>
          by_cases h0 : s.counter = 0
          · have hact : (qstep QEvent.trackedRead s).activations
                = s.activations + 1 := by simp [qstep, h0]
            have hpos : 0 < (qstep QEvent.trackedRead s).counter := by
              simp only [qstep, h0, if_true]
              omega
            have hr := (qrun_activations_of_pos rest hrest _ hpos).1
            calc (qrun (QEvent.trackedRead :: rest) s).activations
                = (qrun rest (qstep QEvent.trackedRead s)).activations := rfl
              _ = (qstep QEvent.trackedRead s).activations := hr
              _ = s.activations + 1 := hact
              _ ≤ s.activations + 1 := Nat.le_refl _
          · have hact : (qstep QEvent.trackedRead s).activations
                = s.activations := by simp [qstep, h0]
            have hcnt : 0 ≤ (qstep QEvent.trackedRead s).counter := by
              simp only [qstep, h0, if_false]
              show (0 : Int) ≤ s.counter + 1
              omega
            have hr := ih hrest (qstep QEvent.trackedRead s) hcnt
            rw [hact] at hr
            exact hr
      | untrackedRead => exact ih hrest s hs
      | cleanup => exact ih hrest (qstep QEvent.cleanup s) hs
      | microtask => exact absurd rfl (h QEvent.microtask (by simp))

theorem qrun_microtasks_deactivations_of_pos :
    ∀ (n : Nat) (t : QuantumSt), (n : Int) < t.counter →
      (qrun (List.replicate n QEvent.microtask) t).deactivations
        = t.deactivations := by
  intro n
  induction n with
  | zero => intro t _; rfl
  | succ n ih =>
      intro t ht
      by_cases hq0 : t.queued = 0
      · have hid : qstep QEvent.microtask t = t := by simp [qstep, hq0]
        calc (qrun (List.replicate (n + 1) QEvent.microtask) t).deactivations
            = (qrun (List.replicate n QEvent.microtask)
                (qstep QEvent.microtask t)).deactivations := rfl
          _ = (qrun (List.replicate n QEvent.microtask) t).deactivations := by
              rw [hid]
          _ = t.deactivations := ih t (by push_cast at ht ⊢; omega)
      · have hcnt : ¬ (t.counter - 1 = 0 ∧ t.hasDispose = true) := by
          intro hx
          have h1 := hx.1
          push_cast at ht
          omega
        have hstep : qstep QEvent.microtask t
            = { t with counter := t.counter - 1, queued := t.queued - 1 } := by
          simp [qstep, hq0, hcnt]
        calc (qrun (List.replicate (n + 1) QEvent.microtask) t).deactivations
            = (qrun (List.replicate n QEvent.microtask)
                (qstep QEvent.microtask t)).deactivations := rfl
          _ = t.deactivations := by
              rw [hstep]
              refine ih _ ?_
              show (n : Int) < t.counter - 1
              push_cast at ht
              omega

/-- Claim C4: the decrement triggered by disposal or rerun of a consumer is
only scheduled (the cleanup step changes nothing but the queue), so it is
never synchronous; for every attach/detach sequence of one synchronous pass
(any microtask-free event sequence from any state with a nonnegative
counter) followed by all the deferred decrements it queued, if the net
observer count is still positive when the deferred teardown fires (a
reattachment outran the queued decrements), then activate fires at most
once net over the whole episode and deactivate never fires; the fresh
attach, detach, reattach trace is one such instance; and when a deferred
decrement does bring the counter to zero with a dispose closure stored,
dispose runs on that step and cannot run again: the closure is cleared and
a further microtask leaves the deactivation count unchanged. -/
theorem quantum_deferred_decrement (s2 : QuantumSt)
    (pass : List QEvent) (hpass : ∀ e ∈ pass, e ≠ QEvent.microtask)
    (s : QuantumSt) (hs : 0 ≤ s.counter)
    (hre : ((qrun pass s).queued : Int) < (qrun pass s).counter)
    (u : QuantumSt)
    (hc : u.counter = 1) (hq : u.queued ≠ 0) (hd : u.hasDispose = true) :
    (qstep QEvent.cleanup s2).counter = s2.counter ∧
    (qstep QEvent.cleanup s2).hasDispose = s2.hasDispose ∧
    (qstep QEvent.cleanup s2).activations = s2.activations ∧
    (qstep QEvent.cleanup s2).deactivations = s2.deactivations ∧
    (qstep QEvent.cleanup s2).queued = s2.queued + 1 ∧
    (qrun (pass ++ List.replicate (qrun pass s).queued QEvent.microtask)
        s).activations ≤ s.activations + 1 ∧
    (qrun (pass ++ List.replicate (qrun pass s).queued QEvent.microtask)
        s).deactivations = s.deactivations ∧
    (qrun [QEvent.trackedRead, QEvent.cleanup, QEvent.trackedRead,
        QEvent.microtask] QuantumSt.start).activations = 1 ∧
    (qrun [QEvent.trackedRead, QEvent.cleanup, QEvent.trackedRead,
        QEvent.microtask] QuantumSt.start).deactivations = 0 ∧
    (qstep QEvent.microtask u).deactivations = u.deactivations + 1 ∧
    (qstep QEvent.microtask u).hasDispose = false ∧
    (qstep QEvent.microtask u).counter = 0 ∧
    (qstep QEvent.microtask (qstep QEvent.microtask u)).deactivations
      = u.deactivations + 1 := by
  have happ : qrun (pass ++ List.replicate (qrun pass s).queued
        QEvent.microtask) s
      = qrun (List.replicate (qrun pass s).queued QEvent.microtask)
          (qrun pass s) :=
    qrun_append pass _ s
  have hnotr : ∀ e ∈ List.replicate (qrun pass s).queued QEvent.microtask,
      e ≠ QEvent.trackedRead := by
    intro e he
    rw [List.eq_of_mem_replicate he]
    intro hx
    exact QEvent.noConfusion hx
  have hact : (qrun (pass ++ List.replicate (qrun pass s).queued
        QEvent.microtask) s).activations ≤ s.activations + 1 := by
    rw [happ, qrun_activations_of_no_tracked _ hnotr]
    exact qrun_activations_le_of_no_microtask pass hpass s hs
  have hdeact : (qrun (pass ++ List.replicate (qrun pass s).queued
        QEvent.microtask) s).deactivations = s.deactivations := by
    rw [happ, qrun_microtasks_deactivations_of_pos _ _ hre]
    exact qrun_deactivations_of_no_microtask pass hpass s
  have hcond : (u.counter - 1 = 0 ∧ u.hasDispose = true) := by
    refine ⟨?_, hd⟩
    rw [hc]
    decide
  have hstep : qstep QEvent.microtask u
      = { u with
            counter := u.counter - 1
            queued := u.queued - 1
            hasDispose := false
            deactivations := u.deactivations + 1 } := by
    simp [qstep, hq, hcond]
  have hcount : (qstep QEvent.microtask u).counter = 0 := by
    rw [hstep]
    show u.counter - 1 = 0
    exact hcond.1
  have hdisp : (qstep QEvent.microtask u).hasDispose = false := by rw [hstep]
  refine ⟨rfl, rfl, rfl, rfl, rfl, hact, hdeact, by decide, by decide,
    ?_, hdisp, hcount, ?_⟩
  · rw [hstep]
  · rw [qstep_microtask_deactivations_of_no_dispose _ hdisp, hstep]

/-- Concrete quantum state for the witness of the deferred-decrement
theorem: one tracked consumer, its cleanup already queued, dispose stored,
one past activation. -/
def quantumOneReader : QuantumSt :=
  { counter := 1
    hasDispose := true
    queued := 1
    activations := 1
    deactivations := 0 }

/-- The attach, detach, reattach events of one synchronous pass, for the
witness of the deferred-decrement theorem. -/
def quantumReattachPass : List QEvent :=
  [QEvent.trackedRead, QEvent.cleanup, QEvent.trackedRead]

/-- Witness for claim C4: the synchronous pass quantumReattachPass from the
fresh state (its end state has one queued decrement against a count of
two), and the concrete state quantumOneReader for the teardown clause. -/
theorem quantum_deferred_decrement_w :
    (qstep QEvent.cleanup QuantumSt.start).counter = QuantumSt.start.counter ∧
    (qstep QEvent.cleanup QuantumSt.start).hasDispose
      = QuantumSt.start.hasDispose ∧
    (qstep QEvent.cleanup QuantumSt.start).activations
      = QuantumSt.start.activations ∧
    (qstep QEvent.cleanup QuantumSt.start).deactivations
      = QuantumSt.start.deactivations ∧
    (qstep QEvent.cleanup QuantumSt.start).queued = QuantumSt.start.queued + 1 ∧
    (qrun (quantumReattachPass
          ++ List.replicate (qrun quantumReattachPass QuantumSt.start).queued
              QEvent.microtask)
        QuantumSt.start).activations ≤ QuantumSt.start.activations + 1 ∧
    (qrun (quantumReattachPass
          ++ List.replicate (qrun quantumReattachPass QuantumSt.start).queued
              QEvent.microtask)
        QuantumSt.start).deactivations = QuantumSt.start.deactivations ∧
    (qrun [QEvent.trackedRead, QEvent.cleanup, QEvent.trackedRead,
        QEvent.microtask] QuantumSt.start).activations = 1 ∧
    (qrun [QEvent.trackedRead, QEvent.cleanup, QEvent.trackedRead,
        QEvent.microtask] QuantumSt.start).deactivations = 0 ∧
    (qstep QEvent.microtask quantumOneReader).deactivations
      = quantumOneReader.deactivations + 1 ∧
    (qstep QEvent.microtask quantumOneReader).hasDispose = false ∧
    (qstep QEvent.microtask quantumOneReader).counter = 0 ∧
    (qstep QEvent.microtask (qstep QEvent.microtask quantumOneReader)).deactivations
      = quantumOneReader.deactivations + 1 :=
  quantum_deferred_decrement QuantumSt.start quantumReattachPass
    (by decide) QuantumSt.start (by decide) (by decide) quantumOneReader
    (by decide) (by decide) (by decide)

/-- Claim C5: track (activate) only runs on a read under a tracked listener
that finds the counter at zero: along any event sequence without a tracked
read the activation count of a fresh counter stays zero, a tracked read at a
nonzero counter does not re-invoke track, and a read outside any tracked
computation leaves the whole counter state unchanged and returns the source
value (as does a tracked read). -/
theorem quantum_activation_only_when_observed (α : Type) (v : α)
    (tr : List QEvent) (htr : ∀ e ∈ tr, e ≠ QEvent.trackedRead)
    (s : QuantumSt) (hs : s.counter ≠ 0) :
    (qrun tr QuantumSt.start).activations = 0 ∧
    (qstep QEvent.trackedRead s).activations = s.activations ∧
    quantumRead α false v s = (v, s) ∧
    (quantumRead α true v s).1 = v := by
  refine ⟨qrun_activations_of_no_tracked tr htr QuantumSt.start, ?_, rfl, rfl⟩
  simp [qstep, hs]

/-- Concrete quantum state with two tracked consumers, for the witness of
the activation-discipline theorem. -/
def quantumTwoReaders : QuantumSt :=
  { counter := 2
    hasDispose := true
    queued := 0
    activations := 1
    deactivations := 0 }

/-- Witness for claim C5: a trace of cleanup, untracked read and microtask
events, and a counter state with two tracked consumers. -/
theorem quantum_activation_only_when_observed_w :
    (qrun [QEvent.cleanup, QEvent.untrackedRead, QEvent.microtask]
        QuantumSt.start).activations = 0 ∧
    (qstep QEvent.trackedRead quantumTwoReaders).activations
      = quantumTwoReaders.activations ∧
    quantumRead Int false 7 quantumTwoReaders = (7, quantumTwoReaders) ∧
    (quantumRead Int true 7 quantumTwoReaders).1 = 7 :=
  quantum_activation_only_when_observed Int 7
    [QEvent.cleanup, QEvent.untrackedRead, QEvent.microtask]
    (by decide) quantumTwoReaders (by decide)


/-! ## Subscription Reconciler

Source: createSubscription.  The record keeps the local signal (created
with the optional initial value), the mutable boolean hasLocal initialized
to the JavaScript truthiness of the initial option, the cache signal
(created empty), and the subscribed signal.  The detached accessor is a
memo recomputing local() !== cache() from the current signals.  The field
holding the local signal is named localVal here because local is a
reserved word in Lean.

Truthiness is a per-type parameter (for JavaScript numbers, zero is falsy;
for booleans, false is falsy; for strings, the empty string is falsy). -/

/-- State of one createSubscription record. -/
structure SubSt (T : Type) where
  localVal : Option T
  hasLocal : Bool
  cache : Option T
  subscribed : Bool
deriving DecidableEq

/-- Fresh subscription record: local starts at the optional initial value,
hasLocal is the truthiness of that option (false when absent), cache is
empty, not subscribed. -/
def SubSt.init (T : Type) (truthy : T → Bool) (initial : Option T) : SubSt T :=
  { localVal := initial
    hasLocal := match initial with
      | none => false
      | some v => truthy v
    cache := none
    subscribed := false }

/-- JavaScript truthiness of a number with integral value. -/
def intTruthy (n : Int) : Bool :=
  decide (n ≠ 0)

/-- The detached accessor: a memo over the current local and cache signals,
true exactly when they differ (source: local() !== cache()). -/
def detached {T : Type} [DecidableEq T] (s : SubSt T) : Bool :=
  decide (s.localVal ≠ s.cache)

/-- The shared commit path of pull and of inbound live-feed updates
(source function updateFromRemote): inside one batch, reconcile the remote
value with the current local and cache (identity, keeping the remote value,
when no reconciliation function is supplied), mark local initialized, and
write the reconciled value to both local and cache. -/
def updateFromRemote {T : Type}
    (reconcile : Option (T → Option T → Option T → T)) (remote : T)
    (s : SubSt T) : SubSt T :=
  let reconciled := match reconcile with
    | some f => f remote s.localVal s.cache
    | none => remote
  { s with
      hasLocal := true
      localVal := some reconciled
      cache := some reconciled }

/-- The pull operation once the remote value is at hand (the synchronous
branch of the source; the promise branch applies the same updateFromRemote
when the promise resolves). -/
def pull {T : Type} (reconcile : Option (T → Option T → Option T → T))
    (remote : T) (s : SubSt T) : SubSt T :=
  updateFromRemote reconcile remote s

/-- A direct write through the setter half of the subscription atom: it
marks local initialized and updates only the local signal. -/
def writeLocal {T : Type} (v : T) (s : SubSt T) : SubSt T :=
  { s with hasLocal := true, localVal := some v }

/-- The push operation: when local has never been initialized it returns
without doing anything; otherwise it hands the current local value to the
remote sink.  The second component reports the sink call: none when the
sink was not invoked, some v when it was invoked with v.  The record
itself is returned unchanged in both branches. -/
def push {T : Type} (s : SubSt T) : SubSt T × Option (Option T) :=
  if s.hasLocal then (s, some s.localVal) else (s, none)

/-- Claim C6: detached is the pure derived fact local differs from cache,
recomputed from the current record (the first equation is definitional for
the embedding of the memo), and a pull followed immediately by a read of
detached yields false, since the commit path writes the same reconciled
value to both signals. -/
theorem subscription_detached_definitional (T : Type) [DecidableEq T]
    (reconcile : Option (T → Option T → Option T → T)) (remote : T)
    (s : SubSt T) :
    detached s = decide (s.localVal ≠ s.cache) ∧
    detached (pull reconcile remote s) = false := by
  refine ⟨rfl, ?_⟩
  cases reconcile <;> simp [detached, pull, updateFromRemote]

/-- Claim C7: pull invokes the reconciliation function with the remote
value, the current local and the current cache, and writes the reconciled
result to both local and cache in one batch, marking local initialized;
the default reconciliation keeps the remote value.  In particular, with the
default reconciliation, after writing 5 directly (detached true) a pull
yielding remote value 9 leaves local 9, cache 9 and detached false. -/
theorem subscription_pull_reconciles (T : Type) [DecidableEq T]
    (f : T → Option T → Option T → T) (remote : T) (s : SubSt T) :
    (pull (some f) remote s).localVal = some (f remote s.localVal s.cache) ∧
    (pull (some f) remote s).cache = some (f remote s.localVal s.cache) ∧
    (pull (some f) remote s).hasLocal = true ∧
    (pull none remote s).localVal = some remote ∧
    (pull none remote s).cache = some remote ∧
    detached (writeLocal 5 (SubSt.init Int intTruthy none)) = true ∧
    (pull none 9 (writeLocal 5 (SubSt.init Int intTruthy none))).localVal
      = some 9 ∧
    (pull none 9 (writeLocal 5 (SubSt.init Int intTruthy none))).cache
      = some 9 ∧
    detached (pull none 9 (writeLocal 5 (SubSt.init Int intTruthy none)))
      = false := by
  refine ⟨rfl, rfl, rfl, rfl, rfl, by decide, by decide, by decide, by decide⟩

/-- Claim C8: push never changes the record: both before and after local is
initialized it leaves local, cache, hasLocal and subscribed exactly as they
were; the only thing it does is hand the current local value to the remote
sink, and when local has never been initialized (in particular on a fresh
record with no initial value, before any pull or write) it does not even
invoke the sink. -/
theorem subscription_push_frame (T : Type) (truthy : T → Bool) (s : SubSt T) :
    (push s).1 = s ∧
    (push s).2 = (if s.hasLocal then some s.localVal else none) ∧
    push (SubSt.init T truthy none) = (SubSt.init T truthy none, none) := by
  by_cases h : s.hasLocal <;>
    simp [push, h, SubSt.init]

/-- Claim C10: the initialized flag of a fresh record is the JavaScript
truthiness of the initial option, so a falsy initial value (zero for a
numeric subscription) leaves the flag false and a push with no intervening
pull or write is a complete no-op that never reaches the sink, while any
truthy initial value makes the very first push send it. -/
theorem subscription_falsy_initial (T : Type) (truthy : T → Bool) (v : T) :
    (SubSt.init T truthy (some v)).hasLocal = truthy v ∧
    (SubSt.init T truthy none).hasLocal = false ∧
    push (SubSt.init T truthy (some v))
      = (SubSt.init T truthy (some v),
          if truthy v then some (some v) else none) ∧
    (push (SubSt.init Int intTruthy (some 0))).2 = none ∧
    (push (SubSt.init Int intTruthy (some 0))).1
      = SubSt.init Int intTruthy (some 0) ∧
    (push (SubSt.init Int intTruthy (some 5))).2 = some (some 5) := by
  refine ⟨rfl, rfl, ?_, by decide, by decide, by decide⟩
  by_cases h : truthy v <;>
    simp [push, SubSt.init, h]

